import Mathlib

/-!
Verification of the number-formatting core of `word_number_formatter.py`.

Texts are modelled as `List Char`.  Python's Unicode-aware character
classes are modelled over the character repertoire this program actually
manipulates: `\d` and `str.isdigit` as the ASCII digits, `\w` as ASCII
alphanumerics, the underscore and the CJK unified ideographs (which cover
the date markers 年月日时分秒 appearing in the pattern).  Python
exceptions are modelled as `Option`/`Except` values: every `except` path
of the source becomes a `none`/`error` branch of a total function.
-/

/-- ASCII decimal digit, the model of Python's `\d` and `str.isdigit`. -/
def isDigitChar (c : Char) : Bool := 48 ≤ c.toNat && c.toNat ≤ 57

/-- ASCII whitespace stripped by Python's `int()`. -/
def isPySpace (c : Char) : Bool :=
  c.toNat = 32 || c.toNat = 9 || c.toNat = 10 || c.toNat = 13 || c.toNat = 11 || c.toNat = 12

/-- CJK unified ideograph (the block containing 年月日时分秒). -/
def isCJKIdeograph (c : Char) : Bool := 0x4E00 ≤ c.toNat && c.toNat ≤ 0x9FFF

/-- Model of Python's `\w` over the relevant repertoire. -/
def isWordChar (c : Char) : Bool := c.isAlphanum || c = '_' || isCJKIdeograph c

/-- The ASCII digit character for `d < 10`. -/
def digitChar (d : Nat) : Char := Char.ofNat (48 + d)

/-- Numeric value of an ASCII digit character. -/
def dval (c : Char) : Nat := c.toNat - 48

/-- Little-endian decimal digits of `n`, with explicit fuel so that the
definition is structurally recursive (fuel `≥ n` is always sufficient). -/
def natDigitsRevFuel : Nat → Nat → List Char
  | 0, _ => []
  | fuel + 1, n => if n = 0 then [] else digitChar (n % 10) :: natDigitsRevFuel fuel (n / 10)

/-- Canonical decimal rendering of a natural number, the model of Python's
`str`/`repr` of a non-negative `int` (no sign, no leading zeros). -/
def natToDigits (n : Nat) : List Char :=
  if n = 0 then ['0'] else (natDigitsRevFuel n n).reverse

/-- Value of a most-significant-first digit string. -/
def digitsVal (l : List Char) : Nat := l.foldl (fun a c => a * 10 + dval c) 0

/-- Value of a least-significant-first digit string. -/
def valLSD (l : List Char) : Nat := l.foldr (fun c a => a * 10 + dval c) 0

/-- Digit-with-underscores loop of Python's `int()` parser: single
underscores are allowed between digits only. -/
def parseUDigitsGo : Nat → List Char → Option Nat
  | acc, [] => some acc
  | acc, c :: t =>
    if c = '_' then
      match t with
      | [] => none
      | c2 :: t2 => if isDigitChar c2 then parseUDigitsGo (acc * 10 + dval c2) t2 else none
    else if isDigitChar c then parseUDigitsGo (acc * 10 + dval c) t
    else none

/-- Unsigned part of Python's `int()` parser: a nonempty digit sequence,
with single underscores allowed between digits. -/
def parseUDigits : List Char → Option Nat
  | [] => none
  | c :: t => if isDigitChar c then parseUDigitsGo (dval c) t else none

/-- Leading/trailing whitespace stripping performed by Python's `int()`. -/
def pyStrip (l : List Char) : List Char :=
  ((l.dropWhile isPySpace).reverse.dropWhile isPySpace).reverse

/-- Model of Python's `int(s)`: optional surrounding whitespace, optional
sign, then digits.  `none` models the `ValueError` raised on failure. -/
def pyInt (s : List Char) : Option Int :=
  match pyStrip s with
  | [] => none
  | c :: r =>
    if c = '-' then (parseUDigits r).map (fun n => -(Int.ofNat n))
    else if c = '+' then (parseUDigits r).map Int.ofNat
    else (parseUDigits (c :: r)).map Int.ofNat

/-- Grouping step on a least-significant-first digit list: after every
three digits, when more digits remain, a comma is inserted. -/
def group3Rev : List Char → List Char
  | d1 :: d2 :: d3 :: d4 :: rest => d1 :: d2 :: d3 :: ',' :: group3Rev (d4 :: rest)
  | l => l

/-- Comma grouping of a most-significant-first digit list, counted from
the least-significant end. -/
def commaGroup (ds : List Char) : List Char := (group3Rev ds.reverse).reverse

/-- Model of Python's thousands-separator integer formatting (the `,`
format option): sign, then the decimal digits of the absolute value
grouped by three with commas. -/
def commaFormat (n : Int) : List Char :=
  if n < 0 then '-' :: commaGroup (natToDigits n.natAbs) else commaGroup (natToDigits n.natAbs)

/-- Modelled from the spec: the digit string split into blocks of three
counting from the least-significant digit. -/
def chunks3 : List Char → List (List Char)
  | [] => []
  | [a] => [[a]]
  | [a, b] => [[a, b]]
  | a :: b :: c :: rest => [a, b, c] :: chunks3 rest

/-- Modelled from the spec's words for C1: the integer rendered with a
comma inserted every three digits counting from the least-significant
digit (blocks of three from the right, joined with commas). -/
def specGrouped (n : Nat) : List Char :=
  (List.intercalate [','] (chunks3 (natToDigits n).reverse)).reverse

/-- `num_str.startswith('-')`. -/
def startsWithMinus : List Char → Bool
  | c :: _ => c = '-'
  | [] => false

/-- `'.' in num_str`. -/
def containsDot : List Char → Bool
  | [] => false
  | c :: t => c = '.' || containsDot t

/-- Prepend a character to the first part of a split (the empty-list arm
is unreachable: a split always has at least one part). -/
def consHead (c : Char) : List (List Char) → List (List Char)
  | h :: r => (c :: h) :: r
  | [] => [[c]]

/-- `num_str.split('.')` (splitting on every dot, keeping empty parts). -/
def splitDot : List Char → List (List Char)
  | [] => [[]]
  | c :: t => if c = '.' then [] :: splitDot t else consHead c (splitDot t)

/-- The string the sign-stripping step of `format_number` works on. -/
def bodyOf (s : List Char) : List Char := if startsWithMinus s then s.tail else s

/-- Result of the decimal branch once the integer part has been parsed:
on success the grouped integer followed by the dot and the verbatim
decimal part, on `ValueError` the original `body`. -/
def formatIntResult (body dp : List Char) : Option Int → List Char
  | some n => commaFormat n ++ '.' :: dp
  | none => body

/-- Result of the decimal branch: the unpacking
`integer_part, decimal_part = num_str.split('.')` raises `ValueError`
(returning the original `body`) unless the split has exactly two parts. -/
def formatSplitResult (body : List Char) : List (List Char) → List Char
  | [ip, dp] => formatIntResult body dp (pyInt ip)
  | _ => body

/-- Result of the no-decimal branch: the grouped integer on success, the
original `body` on `ValueError`. -/
def formatNoDotResult (body : List Char) : Option Int → List Char
  | some n => commaFormat n
  | none => body

/-- Body of `format_number` after the sign has been stripped. -/
def formatBody (body : List Char) : List Char :=
  if containsDot body then formatSplitResult body (splitDot body)
  else formatNoDotResult body (pyInt body)

/-- `WordNumberFormatter.format_number`: strip a leading minus, group the
integer part, reattach the decimal part verbatim, re-prepend the sign;
on `ValueError` return the original string (sign re-prepended). -/
def format_number (s : List Char) : List Char :=
  if startsWithMinus s then '-' :: formatBody (bodyOf s) else formatBody (bodyOf s)

/-- Whether the unpack-and-parse step of the decimal branch fails:
the split does not have exactly two parts, or `int()` fails on the
integer part. -/
def splitFails : List (List Char) → Bool
  | [ip, _] => (pyInt ip).isNone
  | _ => true

/-- The condition under which the integer parse inside `formatBody`
fails (the `except ValueError` path is taken). -/
def intParseFailsBody (body : List Char) : Bool :=
  if containsDot body then splitFails (splitDot body)
  else (pyInt body).isNone

/-- The condition under which the `int()` parse inside `format_number`
fails (the `except ValueError` path is taken). -/
def intParseFails (s : List Char) : Bool := intParseFailsBody (bodyOf s)

example : format_number ('1' :: '0' :: '0' :: '0' :: []) = ('1' :: ',' :: '0' :: '0' :: '0' :: []) := by decide
example : format_number "10000.123".toList = "10,000.123".toList := by decide
example : format_number "-10000.00".toList = "-10,000.00".toList := by decide
example : format_number "007.5".toList = "7.5".toList := by decide

/-- The negative lookbehind of the pattern, applied to the character (if
any) preceding the match start. -/
def lookbehindOK (prev : Option Char) : Bool :=
  match prev with
  | none => true
  | some c => !(c = '/' || isWordChar c)

/-- The negative lookahead of the pattern, applied to the text following
the match end. -/
def lookaheadOK (rest : List Char) : Bool :=
  match rest with
  | [] => true
  | c :: _ =>
    !(isWordChar c || (['-', '/', '年', '月', '日', '时', '分', '秒', '%'] : List Char).contains c)

/-- Length consumed by the optional leading minus of the pattern. -/
def signLen : List Char → Nat
  | c :: _ => if c = '-' then 1 else 0
  | [] => 0

/-- Length of the maximal digit run at the head of the text. -/
def digitRunLen (l : List Char) : Nat := (l.takeWhile isDigitChar).length

/-- Tail of the pattern after the integer digits have been consumed:
`sgn` and `k` are the lengths consumed so far, `r2` the remaining text.
The optional decimal group is taken greedily; when the lookahead fails
after it, backtracking drops the group (a shorter decimal digit run is
always followed by a digit, which is a word character, so the only
successful backtrack is the match that ends right before the dot, where
the lookahead sees the dot and succeeds). -/
def matchAfterInt (sgn k : Nat) (r2 : List Char) : Option Nat :=
  match r2 with
  | [] => if lookaheadOK [] then some (sgn + k) else none
  | c :: r3 =>
    if c = '.' then
      if digitRunLen r3 = 0 then
        if lookaheadOK (c :: r3) then some (sgn + k) else none
      else if lookaheadOK (r3.drop (digitRunLen r3)) then some (sgn + k + 1 + digitRunLen r3)
      else if lookaheadOK (c :: r3) then some (sgn + k) else none
    else if lookaheadOK (c :: r3) then some (sgn + k) else none

/-- After the lookbehind and the optional sign: the pattern requires at
least one digit (backtracking a shorter integer digit run can never help,
because the following character would then be a digit, which the
lookahead rejects as a word character; nor can dropping a consumed sign,
because then no digit follows at the start position). -/
def matchAfterSign (sgn : Nat) (r1 : List Char) : Option Nat :=
  if digitRunLen r1 = 0 then none
  else matchAfterInt sgn (digitRunLen r1) (r1.drop (digitRunLen r1))

/-- Length of the match of `number_pattern` (negative lookbehind for
slash and word characters; optional minus; digits; optional dot and
digits; negative lookahead for word characters, minus, slash and the
date or percent markers) anchored at the current position, where `prev`
is the preceding character. -/
def matchLen (prev : Option Char) (l : List Char) : Option Nat :=
  if lookbehindOK prev then matchAfterSign (signLen l) (l.drop (signLen l)) else none

/-- The `date_chars` list of `replace_number`. -/
def dateChars : List Char := ['年', '月', '日', '时', '分', '秒', '-', '/', '.', '%']

/-- `before in date_chars` (with `before` the single character preceding
the match, or nothing at text start). -/
def beforeDateFlag : Option Char → Bool
  | some c => dateChars.contains c
  | none => false

/-- `after in date_chars` (with `after` the single character following
the match, or nothing at text end). -/
def afterDateFlag : List Char → Bool
  | c :: _ => dateChars.contains c
  | [] => false

/-- A character suggesting a date after a candidate year (`年`, `-`, `/`). -/
def yearMarker (c : Char) : Bool := c = '年' || c = '-' || c = '/'

/-- The `replace_number` callback of `process_text`: `before` is the
character preceding the match, `num` the matched text, `rest` the text
after the match.  The `digitsVal num` in the year branch models
`int(num_str)`, whose parse always succeeds there because the branch is
guarded by `num_str.isdigit()`. -/
def replace_number (before : Option Char) (num : List Char) (rest : List Char) : List Char :=
  if beforeDateFlag before || afterDateFlag rest then num
  else if num.length = 4 && num.all isDigitChar then
    if 1900 ≤ digitsVal num && digitsVal num ≤ 2999 then
      if (rest.take 2).any yearMarker then num
      else format_number num
    else format_number num
  else format_number num

/-- The left-to-right scan of `re.sub`: at each position try the pattern;
on a match, emit the replacement and resume after the matched text; else
emit the character and advance by one.  `prev` is the previous character
of the original text.  The fuel argument makes the recursion structural;
fuel equal to the text length is always sufficient because every step
consumes at least one character. -/
def scanFuel : Nat → Option Char → List Char → List Char
  | 0, _, l => l
  | _ + 1, _, [] => []
  | fuel + 1, prev, c :: t =>
    match matchLen prev (c :: t) with
    | some L =>
      replace_number prev ((c :: t).take L) ((c :: t).drop L)
        ++ scanFuel fuel ((c :: t).take L).getLast? ((c :: t).drop L)
    | none => c :: scanFuel fuel (some c) t

/-- `WordNumberFormatter.process_text`. -/
def process_text (t : List Char) : List Char := scanFuel t.length none t

example : process_text "5000".toList = "5,000".toList := by decide
example : process_text "5,000".toList = "5,0".toList := by decide
example : process_text "2024年".toList = "2024年".toList := by decide
example : process_text "2024-01-05".toList = "2024-01-05".toList := by decide
example : process_text "2024".toList = "2,024".toList := by decide
example : process_text "50%".toList = "50%".toList := by decide
example : process_text "3/4".toList = "3/4".toList := by decide
example : process_text "Revenue 1234567.89".toList = "Revenue 1,234,567.89".toList := by decide
example : process_text "Year 1999-12-31".toList = "Year 1999-12-31".toList := by decide
example : process_text "-5000".toList = "-5,000".toList := by decide
example : process_text "0123".toList = "123".toList := by decide
example : process_text "007.5".toList = "7.5".toList := by decide
example : process_text "1987".toList = "1,987".toList := by decide
example : process_text "1987年".toList = "1987年".toList := by decide
example : process_text "1987-01".toList = "1987-01".toList := by decide

/-- A run of a paragraph: its text and the fill value of its `w:shd`
shading element, if that element is present. -/
structure Run where
  text : List Char
  shdFill : Option (List Char)
deriving DecidableEq

/-- The fill value written by `process_paragraph` (yellow shading). -/
def yellowFill : List Char := ['F', 'F', 'F', 'F', '0', '0']

/-- `paragraph.text`: the concatenation of the run texts. -/
def paraText (rs : List Run) : List Char := (rs.map Run.text).flatten

/-- `WordNumberFormatter.process_paragraph`: no-op when the paragraph has
no runs, its text is empty, or the substitution changes nothing;
otherwise the whole substituted text goes into the first run, which gets
the yellow shading, and every other run is cleared to empty text. -/
def process_paragraph (rs : List Run) : List Run :=
  if (paraText rs).isEmpty || rs.isEmpty then rs
  else if process_text (paraText rs) = paraText rs then rs
  else
    match rs with
    | [] => []
    | r0 :: rest =>
      { r0 with text := process_text (paraText rs), shdFill := some yellowFill }
        :: rest.map (fun r => { r with text := [] })

/-- `WordNumberFormatter.process_table_cell`: each paragraph of the cell
is processed. -/
def process_table_cell (cell : List (List Run)) : List (List Run) :=
  cell.map process_paragraph

/-- The document container: top-level paragraphs and tables, each table a
list of rows, each row a list of cells, each cell a list of paragraphs. -/
structure Doc where
  paragraphs : List (List Run)
  tables : List (List (List (List (List Run))))
deriving DecidableEq

/-- The in-place mutation performed by the paragraph and table loops of
`process_document`. -/
def processedDoc (d : Doc) : Doc where
  paragraphs := d.paragraphs.map process_paragraph
  tables := d.tables.map (fun tbl => tbl.map (fun row => row.map process_table_cell))

/-- The result dictionary of `process_document`. -/
structure ProcessingResult where
  success : Bool
  message : List Char
  output_file : Option (List Char)
deriving DecidableEq

/-- The success message, carrying the paragraph and table counts. -/
def successMessage (paragraphs tables : Nat) : List Char :=
  "处理完成！\n处理段落数：".toList ++ natToDigits paragraphs
    ++ "\n处理表格数：".toList ++ natToDigits tables

/-- The failure message, carrying the rendering of the caught exception. -/
def failureMessage (e : List Char) : List Char := "处理失败：".toList ++ e

/-- The effective output path: the input path when no output path is
given. -/
def effectiveOutput (input_file : List Char) (output_file : Option (List Char)) : List Char :=
  match output_file with
  | none => input_file
  | some o => o

/-- `WordNumberFormatter.process_document`.  The two external fallible
operations — opening the document and saving it — are passed in as
`Except` values; every `error` models an exception caught by the
outermost `try`, converted into a failure result.  The pure scanning,
formatting and reconciliation core is total, so no other failure point
exists; the function never propagates a failure to its caller.
`afterSave` is the tail of the computation from the save call on. -/
def afterSave (doc : Doc) (out : List Char) : Except (List Char) Unit → ProcessingResult
  | Except.error e => { success := false, message := failureMessage e, output_file := none }
  | Except.ok _ =>
    { success := true
      message := successMessage doc.paragraphs.length doc.tables.length
      output_file := some out }

def process_document (openResult : Except (List Char) Doc)
    (saveResult : List Char → Doc → Except (List Char) Unit)
    (input_file : List Char) (output_file : Option (List Char)) : ProcessingResult :=
  match openResult with
  | Except.error e => { success := false, message := failureMessage e, output_file := none }
  | Except.ok doc =>
    afterSave doc (effectiveOutput input_file output_file)
      (saveResult (effectiveOutput input_file output_file) (processedDoc doc))

example :
    process_paragraph
      [⟨"Total: ".toList, none⟩, ⟨"10000".toList, none⟩, ⟨" units".toList, none⟩]
      = [⟨"Total: 10,000 units".toList, some yellowFill⟩, ⟨[], none⟩, ⟨[], none⟩] := by
  decide

example :
    process_paragraph [⟨"no digits here".toList, none⟩]
      = [⟨"no digits here".toList, none⟩] := by
  decide

/-! ### Character facts -/

theorem isDigitChar_toNat {c : Char} (h : isDigitChar c = true) :
    48 ≤ c.toNat ∧ c.toNat ≤ 57 := by
  simpa [isDigitChar] using h

theorem dval_digitChar {d : Nat} (h : d < 10) : dval (digitChar d) = d := by
  interval_cases d <;> decide

theorem isDigitChar_digitChar {d : Nat} (h : d < 10) : isDigitChar (digitChar d) = true := by
  interval_cases d <;> decide

theorem digit_ne {c : Char} (h : isDigitChar c = true) :
    c ≠ '-' ∧ c ≠ '+' ∧ c ≠ '.' ∧ c ≠ '_' := by
  refine ⟨?_, ?_, ?_, ?_⟩ <;> intro he <;> subst he <;> exact absurd h (by decide)

theorem digit_not_space {c : Char} (h : isDigitChar c = true) : isPySpace c = false := by
  have hb := isDigitChar_toNat h
  simp only [isPySpace, Bool.or_eq_false_iff, decide_eq_false_iff_not]
  omega

/-! ### Digit strings: rendering and parsing round-trip -/

theorem natDigitsRevFuel_all_digit :
    ∀ (f n : Nat), ∀ c ∈ natDigitsRevFuel f n, isDigitChar c = true := by
  intro f
  induction f with
  | zero => intro n c hc; simp [natDigitsRevFuel] at hc
  | succ f ih =>
    intro n c hc
    by_cases hn : n = 0
    · simp [natDigitsRevFuel, hn] at hc
    · simp only [natDigitsRevFuel, if_neg hn, List.mem_cons] at hc
      rcases hc with hc | hc
      · subst hc
        exact isDigitChar_digitChar (Nat.mod_lt _ (by norm_num))
      · exact ih (n / 10) c hc

theorem valLSD_natDigitsRevFuel : ∀ (f n : Nat), n ≤ f → valLSD (natDigitsRevFuel f n) = n := by
  intro f
  induction f with
  | zero => intro n h; interval_cases n; rfl
  | succ f ih =>
    intro n h
    by_cases hn : n = 0
    · subst hn; rfl
    · have h10 : n / 10 ≤ f := by
        have := Nat.div_lt_self (Nat.pos_of_ne_zero hn) (by norm_num : 1 < 10)
        omega
      have hm : n % 10 < 10 := Nat.mod_lt _ (by norm_num)
      simp only [natDigitsRevFuel, if_neg hn, valLSD, List.foldr_cons]
      have hrec := ih (n / 10) h10
      simp only [valLSD] at hrec
      rw [hrec, dval_digitChar hm]
      omega

theorem digitsVal_reverse (l : List Char) : digitsVal l.reverse = valLSD l := by
  simp [digitsVal, valLSD, List.foldl_reverse]

theorem digitsVal_natToDigits (n : Nat) : digitsVal (natToDigits n) = n := by
  by_cases hn : n = 0
  · subst hn; decide
  · simp only [natToDigits, if_neg hn]
    rw [digitsVal_reverse]
    exact valLSD_natDigitsRevFuel n n le_rfl

theorem natToDigits_ne_nil (n : Nat) : natToDigits n ≠ [] := by
  by_cases hn : n = 0
  · subst hn; decide
  · simp only [natToDigits, if_neg hn]
    intro h
    rw [List.reverse_eq_nil_iff] at h
    rcases Nat.exists_eq_succ_of_ne_zero hn with ⟨m, rfl⟩
    simp [natDigitsRevFuel] at h

theorem natToDigits_all_digit (n : Nat) : ∀ c ∈ natToDigits n, isDigitChar c = true := by
  intro c hc
  by_cases hn : n = 0
  · subst hn
    have he : natToDigits 0 = ['0'] := rfl
    rw [he, List.mem_singleton] at hc
    subst hc; decide
  · simp only [natToDigits, if_neg hn, List.mem_reverse] at hc
    exact natDigitsRevFuel_all_digit n n c hc

theorem natDigitsRevFuel_length_le :
    ∀ (f n k : Nat), n ≤ f → n < 10 ^ k → (natDigitsRevFuel f n).length ≤ k := by
  intro f
  induction f with
  | zero => intro n k h hk; interval_cases n; simp [natDigitsRevFuel]
  | succ f ih =>
    intro n k h hk
    by_cases hn : n = 0
    · subst hn; simp [natDigitsRevFuel]
    · have hkne : k ≠ 0 := by
        intro hk0; subst hk0; simp at hk; omega
      rcases Nat.exists_eq_succ_of_ne_zero hkne with ⟨k', rfl⟩
      have h10 : n / 10 ≤ f := by
        have := Nat.div_lt_self (Nat.pos_of_ne_zero hn) (by norm_num : 1 < 10)
        omega
      have hdiv : n / 10 < 10 ^ k' := by
        rw [Nat.div_lt_iff_lt_mul (by norm_num : 0 < 10)]
        calc n < 10 ^ (k' + 1) := hk
          _ = 10 ^ k' * 10 := by ring
      simp only [natDigitsRevFuel, if_neg hn, List.length_cons]
      have := ih (n / 10) k' h10 hdiv
      omega

theorem natToDigits_length_le_three {n : Nat} (h : n < 1000) : (natToDigits n).length ≤ 3 := by
  by_cases hn : n = 0
  · subst hn; decide
  · simp only [natToDigits, if_neg hn, List.length_reverse]
    have h3 : n < 10 ^ 3 := by norm_num; omega
    exact natDigitsRevFuel_length_le n n 3 le_rfl h3

theorem parseUDigitsGo_digits :
    ∀ (t : List Char) (acc : Nat), (∀ c ∈ t, isDigitChar c = true) →
      parseUDigitsGo acc t = some (t.foldl (fun a c => a * 10 + dval c) acc) := by
  intro t
  induction t with
  | nil => intro acc _; rfl
  | cons c t ih =>
    intro acc h
    have hc := h c (List.mem_cons_self c t)
    have hne : ¬ c = '_' := (digit_ne hc).2.2.2
    have hrec := ih (acc * 10 + dval c) (fun d hd => h d (List.mem_cons_of_mem c hd))
    cases t with
    | nil =>
      have step : parseUDigitsGo acc (c :: [])
          = if c = '_' then none
            else if isDigitChar c then parseUDigitsGo (acc * 10 + dval c) [] else none := rfl
      rw [step, if_neg hne, if_pos hc, List.foldl_cons]
      exact hrec
    | cons c2 t2 =>
      have step : parseUDigitsGo acc (c :: c2 :: t2)
          = if c = '_' then
              (if isDigitChar c2 then parseUDigitsGo (acc * 10 + dval c2) t2 else none)
            else if isDigitChar c then parseUDigitsGo (acc * 10 + dval c) (c2 :: t2)
            else none := rfl
      rw [step, if_neg hne, if_pos hc, List.foldl_cons]
      exact hrec

theorem parseUDigits_digits {l : List Char} (hne : l ≠ [])
    (h : ∀ c ∈ l, isDigitChar c = true) : parseUDigits l = some (digitsVal l) := by
  rcases l with _ | ⟨c, t⟩
  · exact absurd rfl hne
  · have hc := h c (List.mem_cons_self c t)
    simp only [parseUDigits, if_pos hc]
    rw [parseUDigitsGo_digits t (dval c) (fun d hd => h d (List.mem_cons_of_mem c hd))]
    simp [digitsVal]

theorem dropWhile_eq_self {p : Char → Bool} {l : List Char}
    (h : ∀ c ∈ l, p c = false) : l.dropWhile p = l := by
  cases l with
  | nil => rfl
  | cons c t => simp [List.dropWhile_cons, h c (List.mem_cons_self c t)]

theorem pyStrip_eq_self {l : List Char} (h : ∀ c ∈ l, isPySpace c = false) : pyStrip l = l := by
  unfold pyStrip
  rw [dropWhile_eq_self h]
  rw [dropWhile_eq_self (fun c hc => h c (List.mem_reverse.mp hc))]
  exact List.reverse_reverse l

theorem pyInt_digits {l : List Char} (hne : l ≠ [])
    (h : ∀ c ∈ l, isDigitChar c = true) : pyInt l = some (Int.ofNat (digitsVal l)) := by
  rcases l with _ | ⟨c, t⟩
  · exact absurd rfl hne
  · have hc := h c (List.mem_cons_self c t)
    have hstrip : pyStrip (c :: t) = c :: t :=
      pyStrip_eq_self (fun d hd => digit_not_space (h d hd))
    have step : pyInt (c :: t)
        = if c = '-' then (parseUDigits t).map (fun n => -(Int.ofNat n))
          else if c = '+' then (parseUDigits t).map Int.ofNat
          else (parseUDigits (c :: t)).map Int.ofNat := by
      unfold pyInt
      rw [hstrip]
    rw [step, if_neg (digit_ne hc).1, if_neg (digit_ne hc).2.1]
    rw [parseUDigits_digits hne h]
    rfl

/-! ### Grouping -/

theorem group3Rev_short {l : List Char} (h : l.length ≤ 3) : group3Rev l = l := by
  rcases l with _ | ⟨a, _ | ⟨b, _ | ⟨c, _ | ⟨d, t⟩⟩⟩⟩
  · rfl
  · rfl
  · rfl
  · rfl
  · simp only [List.length_cons] at h
    omega

theorem commaGroup_short {ds : List Char} (h : ds.length ≤ 3) : commaGroup ds = ds := by
  unfold commaGroup
  rw [group3Rev_short (by rw [List.length_reverse]; exact h), List.reverse_reverse]

theorem chunks3_ne_nil {l : List Char} (h : l ≠ []) : chunks3 l ≠ [] := by
  rcases l with _ | ⟨a, _ | ⟨b, _ | ⟨c, t⟩⟩⟩
  · exact absurd rfl h
  · simp [chunks3]
  · simp [chunks3]
  · simp [chunks3]

theorem intercalate_cons_cons (s x y : List Char) (zs : List (List Char)) :
    List.intercalate s (x :: y :: zs) = x ++ s ++ List.intercalate s (y :: zs) := by
  simp [List.intercalate, List.intersperse, List.append_assoc]

theorem group3Rev_eq_chunks : ∀ l : List Char, group3Rev l = List.intercalate [','] (chunks3 l) := by
  intro l
  induction l using chunks3.induct with
  | case1 => rfl
  | case2 a => rfl
  | case3 a b => rfl
  | case4 a b c rest ih =>
    rcases rest with _ | ⟨d, t⟩
    · rfl
    · have hne : chunks3 (d :: t) ≠ [] := chunks3_ne_nil (by simp)
      rcases hw : chunks3 (d :: t) with _ | ⟨w, ws⟩
      · exact absurd hw hne
      · have hl : group3Rev (a :: b :: c :: d :: t)
            = a :: b :: c :: ',' :: group3Rev (d :: t) := rfl
        have hr : chunks3 (a :: b :: c :: d :: t) = [a, b, c] :: chunks3 (d :: t) := rfl
        rw [hl, ih, hr, hw, intercalate_cons_cons]
        rfl

theorem commaFormat_ofNat (n : Nat) : commaFormat (Int.ofNat n) = commaGroup (natToDigits n) := by
  unfold commaFormat
  have h0 : ¬ Int.ofNat n < 0 := by
    rw [Int.ofNat_eq_natCast]
    exact Int.not_lt.mpr (Int.natCast_nonneg n)
  rw [if_neg h0]
  rfl

/-! ### `format_number` on digit strings -/

theorem containsDot_eq_false {l : List Char} (h : ∀ c ∈ l, isDigitChar c = true) :
    containsDot l = false := by
  induction l with
  | nil => rfl
  | cons c t ih =>
    have hc := h c (List.mem_cons_self c t)
    have hne : ¬ c = '.' := (digit_ne hc).2.2.1
    simp [containsDot, hne, ih (fun d hd => h d (List.mem_cons_of_mem c hd))]

theorem formatBody_digits {l : List Char} (hne : l ≠ [])
    (h : ∀ c ∈ l, isDigitChar c = true) :
    formatBody l = commaGroup (natToDigits (digitsVal l)) := by
  unfold formatBody
  rw [if_neg (by rw [containsDot_eq_false h]; exact Bool.false_ne_true)]
  rw [pyInt_digits hne h]
  exact commaFormat_ofNat (digitsVal l)

theorem format_number_digits {l : List Char} (hne : l ≠ [])
    (h : ∀ c ∈ l, isDigitChar c = true) :
    format_number l = commaGroup (natToDigits (digitsVal l)) := by
  rcases l with _ | ⟨c, t⟩
  · exact absurd rfl hne
  · have hc := h c (List.mem_cons_self c t)
    have hm : startsWithMinus (c :: t) = false := by
      simp [startsWithMinus, (digit_ne hc).1]
    unfold format_number bodyOf
    rw [hm]
    simp only [Bool.false_eq_true, if_false]
    exact formatBody_digits hne h

theorem splitDot_no_dot {l : List Char} (h : ∀ c ∈ l, ¬ c = '.') : splitDot l = [l] := by
  induction l with
  | nil => rfl
  | cons c t ih =>
    have hc := h c (List.mem_cons_self c t)
    have step : splitDot (c :: t)
        = if c = '.' then [] :: splitDot t else consHead c (splitDot t) := rfl
    rw [step, if_neg hc, ih (fun d hd => h d (List.mem_cons_of_mem c hd))]
    rfl

theorem splitDot_append_dot {a b : List Char} (ha : ∀ c ∈ a, ¬ c = '.')
    (hb : ∀ c ∈ b, ¬ c = '.') : splitDot (a ++ '.' :: b) = [a, b] := by
  induction a with
  | nil =>
    rw [List.nil_append]
    have step : splitDot ('.' :: b)
        = if '.' = '.' then [] :: splitDot b else consHead '.' (splitDot b) := rfl
    rw [step, if_pos rfl, splitDot_no_dot hb]
  | cons c a ih =>
    have hc := ha c (List.mem_cons_self c a)
    rw [List.cons_append]
    have step : splitDot (c :: (a ++ '.' :: b))
        = if c = '.' then [] :: splitDot (a ++ '.' :: b)
          else consHead c (splitDot (a ++ '.' :: b)) := rfl
    rw [step, if_neg hc, ih (fun d hd => ha d (List.mem_cons_of_mem c hd))]
    rfl

theorem containsDot_append_dot (a b : List Char) : containsDot (a ++ '.' :: b) = true := by
  induction a with
  | nil => simp [containsDot]
  | cons c a ih => simp [containsDot, ih]

theorem formatBody_digits_dot {i : List Char} (d : List Char) (hi : i ≠ [])
    (hdi : ∀ c ∈ i, isDigitChar c = true) (hdd : ∀ c ∈ d, isDigitChar c = true) :
    formatBody (i ++ '.' :: d) = commaGroup (natToDigits (digitsVal i)) ++ '.' :: d := by
  unfold formatBody
  rw [if_pos (containsDot_append_dot i d)]
  rw [splitDot_append_dot (fun c hc => (digit_ne (hdi c hc)).2.2.1)
    (fun c hc => (digit_ne (hdd c hc)).2.2.1)]
  rw [show formatSplitResult (i ++ '.' :: d) [i, d]
      = formatIntResult (i ++ '.' :: d) d (pyInt i) from rfl]
  rw [pyInt_digits hi hdi]
  exact congrArg (fun x => x ++ '.' :: d) (commaFormat_ofNat (digitsVal i))

theorem format_number_signed_dot (neg : Bool) {i d : List Char} (hi : i ≠ [])
    (hdi : ∀ c ∈ i, isDigitChar c = true) (hdd : ∀ c ∈ d, isDigitChar c = true) :
    format_number ((if neg then ['-'] else []) ++ i ++ '.' :: d)
      = (if neg then ['-'] else []) ++ commaGroup (natToDigits (digitsVal i)) ++ '.' :: d := by
  cases neg with
  | false =>
    show format_number (i ++ '.' :: d) = commaGroup (natToDigits (digitsVal i)) ++ '.' :: d
    rcases i with _ | ⟨c, t⟩
    · exact absurd rfl hi
    · have hc := hdi c (List.mem_cons_self c t)
      have hm : startsWithMinus ((c :: t) ++ '.' :: d) = false := by
        simp [startsWithMinus, (digit_ne hc).1]
      unfold format_number bodyOf
      rw [hm]
      simp only [Bool.false_eq_true, if_false]
      exact formatBody_digits_dot d hi hdi hdd
  | true =>
    show format_number ('-' :: (i ++ '.' :: d))
        = '-' :: (commaGroup (natToDigits (digitsVal i)) ++ '.' :: d)
    show '-' :: formatBody (i ++ '.' :: d)
        = '-' :: (commaGroup (natToDigits (digitsVal i)) ++ '.' :: d)
    exact congrArg (fun x => '-' :: x) (formatBody_digits_dot d hi hdi hdd)

theorem format_number_signed (neg : Bool) {i : List Char} (hi : i ≠ [])
    (hdi : ∀ c ∈ i, isDigitChar c = true) :
    format_number ((if neg then ['-'] else []) ++ i)
      = (if neg then ['-'] else []) ++ commaGroup (natToDigits (digitsVal i)) := by
  cases neg with
  | false =>
    show format_number i = commaGroup (natToDigits (digitsVal i))
    exact format_number_digits hi hdi
  | true =>
    show format_number ('-' :: i) = '-' :: commaGroup (natToDigits (digitsVal i))
    show '-' :: formatBody i = '-' :: commaGroup (natToDigits (digitsVal i))
    exact congrArg (fun x => '-' :: x) (formatBody_digits hi hdi)

/-! ### Scan facts -/

theorem takeWhile_nil_of_none {p : Char → Bool} {l : List Char}
    (h : ∀ c ∈ l, p c = false) : l.takeWhile p = [] := by
  cases l with
  | nil => rfl
  | cons c t => simp [List.takeWhile_cons, h c (List.mem_cons_self c t)]

theorem matchLen_none_of_no_digit {prev : Option Char} {l : List Char}
    (h : ∀ c ∈ l, isDigitChar c = false) : matchLen prev l = none := by
  unfold matchLen
  have hz : digitRunLen (l.drop (signLen l)) = 0 := by
    unfold digitRunLen
    rw [takeWhile_nil_of_none (fun c hc => h c (List.drop_subset _ _ hc))]
    rfl
  split
  · unfold matchAfterSign
    rw [if_pos hz]
  · rfl

theorem scanFuel_no_digit : ∀ (fuel : Nat) (prev : Option Char) (l : List Char),
    (∀ c ∈ l, isDigitChar c = false) → scanFuel fuel prev l = l := by
  intro fuel
  induction fuel with
  | zero => intro prev l _; rfl
  | succ fuel ih =>
    intro prev l h
    rcases l with _ | ⟨c, t⟩
    · rfl
    · have step : scanFuel (fuel + 1) prev (c :: t)
          = match matchLen prev (c :: t) with
            | some L =>
              replace_number prev ((c :: t).take L) ((c :: t).drop L)
                ++ scanFuel fuel ((c :: t).take L).getLast? ((c :: t).drop L)
            | none => c :: scanFuel fuel (some c) t := rfl
      rw [step, matchLen_none_of_no_digit h]
      rw [ih (some c) t (fun d hd => h d (List.mem_cons_of_mem c hd))]

theorem process_text_no_digit {l : List Char} (h : ∀ c ∈ l, isDigitChar c = false) :
    process_text l = l := scanFuel_no_digit l.length none l h

/-! ### The fail-closed path of `format_number` -/

theorem formatBody_fail {body : List Char} (h : intParseFailsBody body = true) :
    formatBody body = body := by
  unfold intParseFailsBody at h
  unfold formatBody
  split at h
  case isTrue hdot =>
    rw [if_pos hdot]
    rcases hsp : splitDot body with _ | ⟨p1, _ | ⟨p2, _ | ⟨p3, ps⟩⟩⟩
    · rfl
    · rfl
    · rw [hsp] at h
      have hnone : pyInt p1 = none := Option.isNone_iff_eq_none.mp h
      show formatIntResult body p2 (pyInt p1) = body
      rw [hnone]
      rfl
    · rfl
  case isFalse hdot =>
    rw [if_neg hdot]
    have hnone : pyInt body = none := Option.isNone_iff_eq_none.mp h
    rw [hnone]
    rfl

theorem format_number_fail {s : List Char} (h : intParseFails s = true) :
    format_number s = s := by
  have hb : formatBody (bodyOf s) = bodyOf s := formatBody_fail h
  unfold format_number
  split
  case isTrue hm =>
    rcases s with _ | ⟨c, t⟩
    · exact absurd hm (by decide)
    · have hc : c = '-' := by simpa [startsWithMinus] using hm
      subst hc
      have hbody : bodyOf ('-' :: t) = t := rfl
      rw [hbody] at hb
      rw [hbody, hb]
  case isFalse hm =>
    have hbody : bodyOf s = s := by simp [bodyOf, hm]
    rw [hbody] at hb
    rw [hbody, hb]

/-! ### Claims -/

/-- C1: for every non-negative integer `n`, `format_number` applied to
the decimal text of `n` returns that integer rendered with a comma
inserted every three digits counting from the least-significant digit
(the spec-side rendering `specGrouped`), and returns the digits
unchanged (no separator) whenever `n < 1000`. -/
theorem c1_grouping_correct (n : Nat) :
    format_number (natToDigits n) = specGrouped n ∧
    (n < 1000 → format_number (natToDigits n) = natToDigits n) := by
  have hfmt : format_number (natToDigits n) = commaGroup (natToDigits n) := by
    rw [format_number_digits (natToDigits_ne_nil n) (natToDigits_all_digit n),
      digitsVal_natToDigits]
  constructor
  · rw [hfmt]
    unfold specGrouped commaGroup
    rw [group3Rev_eq_chunks]
  · intro hlt
    rw [hfmt]
    exact commaGroup_short (natToDigits_length_le_three hlt)

/-- Witness for C1: the theorem applied at `n = 500`, whose decimal text
is left ungrouped because `500 < 1000`. -/
theorem c1_grouping_correct_witness :
    format_number ('5' :: '0' :: '0' :: []) = '5' :: '0' :: '0' :: [] := by
  have h := (c1_grouping_correct 500).2 (by decide)
  have e : natToDigits 500 = '5' :: '0' :: '0' :: [] := by decide
  rw [e] at h
  exact h

/-- C2: for every formattable literal made of an optional leading minus
sign, a digit string `i`, and optionally a decimal point followed by a
digit string `d`, `format_number` returns the optional sign, then the
grouping of the integer value of `i`, then — when present — the decimal
point and `d` character for character (first conjunct: decimal part
present; second conjunct: decimal part absent); in particular
`-10000.00` maps to `-10,000.00`, `10000.123` maps to `10,000.123` and
`-5000` maps to `-5,000`. -/
theorem c2_sign_and_decimal :
    (∀ (neg : Bool) (i d : List Char), i ≠ [] → (∀ c ∈ i, isDigitChar c = true) →
      d ≠ [] → (∀ c ∈ d, isDigitChar c = true) →
      format_number ((if neg then ['-'] else []) ++ i ++ '.' :: d)
        = (if neg then ['-'] else []) ++ commaGroup (natToDigits (digitsVal i)) ++ '.' :: d)
    ∧ (∀ (neg : Bool) (i : List Char), i ≠ [] → (∀ c ∈ i, isDigitChar c = true) →
      format_number ((if neg then ['-'] else []) ++ i)
        = (if neg then ['-'] else []) ++ commaGroup (natToDigits (digitsVal i)))
    ∧ format_number "-10000.00".toList = "-10,000.00".toList
    ∧ format_number "10000.123".toList = "10,000.123".toList
    ∧ format_number "-5000".toList = "-5,000".toList := by
  refine ⟨?_, ?_, by decide, by decide, by decide⟩
  · intro neg i d hi hdi _hd hdd
    exact format_number_signed_dot neg hi hdi hdd
  · intro neg i hi hdi
    exact format_number_signed neg hi hdi

/-- Witness for C2: the universal part applied at the literal
`-10000.00`. -/
theorem c2_sign_and_decimal_witness :
    format_number ('-' :: '1' :: '0' :: '0' :: '0' :: '0' :: '.' :: '0' :: '0' :: [])
      = '-' :: '1' :: '0' :: ',' :: '0' :: '0' :: '0' :: '.' :: '0' :: '0' :: [] := by
  have h := c2_sign_and_decimal.1 true ('1' :: '0' :: '0' :: '0' :: '0' :: [])
    ('0' :: '0' :: []) (by decide) (by decide) (by decide) (by decide)
  exact h.trans (by decide)

/-- C3: the claimed idempotence of `process_text` fails on the code.
`process_text "5000" = "5,000"`, but a second application yields
`"5,0"`: the scanner matches the digit groups adjacent to the inserted
commas (a comma is neither excluded by the pattern context nor a member
of `date_chars`), and `format_number` reparses `"000"` to `"0"`.  A
second pass therefore corrupts the number, contradicting the program's
own stated purpose of rendering numbers in thousands-separated form.
This theorem evaluates the code at the failing input. -/
theorem c3_second_pass_regroups :
    process_text ("5000".toList) = "5,000".toList ∧
    process_text (process_text ("5000".toList)) = "5,0".toList ∧
    process_text (process_text ("5000".toList)) ≠ process_text ("5000".toList) := by
  refine ⟨by decide, by decide, by decide⟩

/-- C4: whenever the single character before or after a matched
candidate is one of the date, time or percent delimiters of
`date_chars`, the substitution callback returns the candidate unchanged
(and so `process_text` leaves it in place); in particular `2024年`,
`2024-01-05`, `50%` and `3/4` are left unmodified by `process_text`. -/
theorem c4_date_adjacent_excluded :
    (∀ (before : Option Char) (num rest : List Char),
      (beforeDateFlag before || afterDateFlag rest) = true →
      replace_number before num rest = num)
    ∧ process_text "2024年".toList = "2024年".toList
    ∧ process_text "2024-01-05".toList = "2024-01-05".toList
    ∧ process_text "50%".toList = "50%".toList
    ∧ process_text "3/4".toList = "3/4".toList := by
  refine ⟨?_, by decide, by decide, by decide, by decide⟩
  intro before num rest h
  unfold replace_number
  rw [if_pos h]

/-- Witness for C4: a candidate preceded by a hyphen is returned
unchanged. -/
theorem c4_date_adjacent_excluded_witness :
    replace_number (some '-') ('5' :: []) [] = '5' :: [] :=
  c4_date_adjacent_excluded.1 (some '-') ('5' :: []) [] (by decide)

/-- C5: a matched candidate of exactly four digits (no sign, no decimal
point) with value between 1900 and 2999, not excluded by the
`date_chars` rule, is kept unchanged exactly when the two characters
following the match contain a year marker, hyphen or slash, and is
formatted otherwise; in particular `2024` alone becomes `2,024`, `1987`
alone becomes `1,987`, while `1987年` and `1987-01` stay unchanged. -/
theorem c5_year_heuristic :
    (∀ (before : Option Char) (num rest : List Char),
      beforeDateFlag before = false → afterDateFlag rest = false →
      num.length = 4 → num.all isDigitChar = true →
      1900 ≤ digitsVal num → digitsVal num ≤ 2999 →
      replace_number before num rest =
        if (rest.take 2).any yearMarker then num else format_number num)
    ∧ process_text "2024".toList = "2,024".toList
    ∧ process_text "1987".toList = "1,987".toList
    ∧ process_text "1987年".toList = "1987年".toList
    ∧ process_text "1987-01".toList = "1987-01".toList := by
  refine ⟨?_, by decide, by decide, by decide, by decide⟩
  intro before num rest hb ha hlen hall h1 h2
  unfold replace_number
  rw [hb, ha]
  simp only [Bool.or_self, Bool.false_eq_true, if_false]
  have hc1 : (num.length = 4 && num.all isDigitChar) = true := by
    rw [hlen, hall]
    rfl
  rw [if_pos hc1]
  have hc2 : (1900 ≤ digitsVal num && digitsVal num ≤ 2999) = true := by
    simp [h1, h2]
  rw [if_pos hc2]

/-- Witness for C5: the bare year `2024` with nothing after it is
formatted to `2,024`. -/
theorem c5_year_heuristic_witness :
    replace_number none ('2' :: '0' :: '2' :: '4' :: []) []
      = '2' :: ',' :: '0' :: '2' :: '4' :: [] := by
  have h := c5_year_heuristic.1 none ('2' :: '0' :: '2' :: '4' :: []) []
    (by decide) (by decide) (by decide) (by decide) (by decide) (by decide)
  exact h.trans (by decide)

/-- C6: when the substituted text differs from the paragraph text, the
whole substituted text is written into the first run, which receives the
yellow shading; every remaining run keeps its place but is cleared to
empty text; the number of runs is unchanged. -/
theorem c6_reconcile_collapse (r0 : Run) (rest : List Run)
    (hneq : process_text (paraText (r0 :: rest)) ≠ paraText (r0 :: rest)) :
    process_paragraph (r0 :: rest)
        = { r0 with text := process_text (paraText (r0 :: rest)), shdFill := some yellowFill }
            :: rest.map (fun r => { r with text := [] })
      ∧ (process_paragraph (r0 :: rest)).length = (r0 :: rest).length := by
  have hfull : (paraText (r0 :: rest)).isEmpty = false := by
    rcases hful : paraText (r0 :: rest) with _ | ⟨x, xs⟩
    · exact absurd (by rw [hful]; rfl) hneq
    · rfl
  have hmain : process_paragraph (r0 :: rest)
      = { r0 with text := process_text (paraText (r0 :: rest)), shdFill := some yellowFill }
          :: rest.map (fun r => { r with text := [] }) := by
    unfold process_paragraph
    rw [hfull]
    have hre : (r0 :: rest).isEmpty = false := rfl
    rw [hre]
    simp only [Bool.or_self, Bool.false_eq_true, if_false]
    rw [if_neg hneq]
  exact ⟨hmain, by rw [hmain]; simp⟩

/-- Witness for C6: the three-run paragraph concatenating to
`Total: 10000 units`. -/
theorem c6_reconcile_collapse_witness :
    process_paragraph
        (Run.mk "Total: ".toList none :: Run.mk "10000".toList none
          :: Run.mk " units".toList none :: [])
      = Run.mk "Total: 10,000 units".toList (some yellowFill)
          :: Run.mk [] none :: Run.mk [] none :: [] := by
  have h := (c6_reconcile_collapse (Run.mk "Total: ".toList none)
    (Run.mk "10000".toList none :: Run.mk " units".toList none :: []) (by decide)).1
  exact h.trans (by decide)

/-- C7: `process_paragraph` is a no-op when the paragraph has no runs,
when its concatenated text is empty, or when the substituted text equals
the original; in particular a paragraph containing no digit is left
completely unchanged (identical run texts, no shading applied). -/
theorem c7_noop_cases (rs : List Run) :
    (rs = [] → process_paragraph rs = rs)
    ∧ (paraText rs = [] → process_paragraph rs = rs)
    ∧ (process_text (paraText rs) = paraText rs → process_paragraph rs = rs)
    ∧ ((∀ c ∈ paraText rs, isDigitChar c = false) → process_paragraph rs = rs) := by
  have h3 : process_text (paraText rs) = paraText rs → process_paragraph rs = rs := by
    intro h
    unfold process_paragraph
    by_cases hc : ((paraText rs).isEmpty || rs.isEmpty) = true
    · rw [if_pos hc]
    · rw [if_neg hc, if_pos h]
  refine ⟨?_, ?_, h3, fun h => h3 (process_text_no_digit h)⟩
  · rintro rfl
    rfl
  · intro h
    unfold process_paragraph
    rw [h]
    rfl

/-- Witness for C7: a one-run paragraph with no digits is unchanged. -/
theorem c7_noop_cases_witness :
    process_paragraph (Run.mk ('a' :: 'b' :: []) none :: [])
      = Run.mk ('a' :: 'b' :: []) none :: [] :=
  (c7_noop_cases (Run.mk ('a' :: 'b' :: []) none :: [])).2.2.2 (by decide)

/-- C8: `format_number` fails closed: whenever the integer parse inside
it fails (`intParseFails`), it returns the original input unchanged,
leading minus sign included.  In this embedding the exception paths are
the `none` branches of total functions, so `format_number` also never
propagates a failure. -/
theorem c8_fails_closed (s : List Char) (h : intParseFails s = true) :
    format_number s = s :=
  format_number_fail h

/-- Witness for C8: on `-.` the split yields an empty integer part,
`int()` fails, and the original string (with its sign) is returned. -/
theorem c8_fails_closed_witness :
    format_number ('-' :: '.' :: []) = '-' :: '.' :: [] :=
  c8_fails_closed ('-' :: '.' :: []) (by decide)

/-- C9: `process_document` converts every failure of the two external
fallible operations (open, save) into a result with `success := false`
and a message, and never propagates a failure (the scanning, formatting
and reconciliation core of the embedding is total); on success the
result carries the success flag, the message holding the paragraph count
(the number of top-level paragraphs) and the table count (the number of
tables), and the effective output path, which is the input path when no
output path is given. -/
theorem c9_result_contract (openR : Except (List Char) Doc)
    (save : List Char → Doc → Except (List Char) Unit)
    (inp : List Char) (outFile : Option (List Char)) :
    (outFile = none → effectiveOutput inp outFile = inp)
    ∧ (∀ e, openR = Except.error e →
        process_document openR save inp outFile
          = { success := false, message := failureMessage e, output_file := none })
    ∧ (∀ doc e, openR = Except.ok doc →
        save (effectiveOutput inp outFile) (processedDoc doc) = Except.error e →
        process_document openR save inp outFile
          = { success := false, message := failureMessage e, output_file := none })
    ∧ (∀ doc, openR = Except.ok doc →
        save (effectiveOutput inp outFile) (processedDoc doc) = Except.ok () →
        process_document openR save inp outFile
          = { success := true,
              message := successMessage doc.paragraphs.length doc.tables.length,
              output_file := some (effectiveOutput inp outFile) }) := by
  refine ⟨?_, ?_, ?_, ?_⟩
  · rintro rfl
    rfl
  · rintro e rfl
    rfl
  · rintro doc e rfl hsave
    show afterSave doc (effectiveOutput inp outFile)
        (save (effectiveOutput inp outFile) (processedDoc doc))
      = { success := false, message := failureMessage e, output_file := none }
    rw [hsave]
    rfl
  · rintro doc rfl hsave
    show afterSave doc (effectiveOutput inp outFile)
        (save (effectiveOutput inp outFile) (processedDoc doc))
      = { success := true,
          message := successMessage doc.paragraphs.length doc.tables.length,
          output_file := some (effectiveOutput inp outFile) }
    rw [hsave]
    rfl

/-- Witness for C9: a one-paragraph, zero-table document processed with
no output path succeeds, reports counts 1 and 0, and writes back to the
input path. -/
theorem c9_result_contract_witness :
    process_document (Except.ok (Doc.mk [[Run.mk ('a' :: []) none]] []))
        (fun _ _ => Except.ok ()) ('i' :: []) none
      = { success := true, message := successMessage 1 0, output_file := some ('i' :: []) } := by
  have h := (c9_result_contract (Except.ok (Doc.mk [[Run.mk ('a' :: []) none]] []))
    (fun _ _ => Except.ok ()) ('i' :: []) none).2.2.2
    (Doc.mk [[Run.mk ('a' :: []) none]] []) rfl rfl
  exact h.trans (by decide)

/-- C10 (implicit): a matched candidate whose integer part carries
leading zeros is replaced by the grouping of the canonical decimal
rendering of its parsed value — the leading zeros are dropped, so the
transformation is a re-rendering, not a mere insertion of separators;
in particular `process_text` maps `0123` to `123` and `007.5` to
`7.5`. -/
theorem c10_canonical_rerender :
    (∀ l : List Char, l ≠ [] → (∀ c ∈ l, isDigitChar c = true) →
      format_number l = commaGroup (natToDigits (digitsVal l)))
    ∧ process_text "0123".toList = "123".toList
    ∧ process_text "007.5".toList = "7.5".toList := by
  refine ⟨?_, by decide, by decide⟩
  intro l hne h
  exact format_number_digits hne h

/-- Witness for C10: `format_number` maps `0123` to `123`. -/
theorem c10_canonical_rerender_witness :
    format_number ('0' :: '1' :: '2' :: '3' :: []) = '1' :: '2' :: '3' :: [] := by
  have h := c10_canonical_rerender.1 ('0' :: '1' :: '2' :: '3' :: []) (by decide) (by decide)
  exact h.trans (by decide)
